import Mathlib

/-!
# StartCore atomics: a shallow embedding of `Sources/Core/include/Atomic.h`

The header generates, by macro expansion, one family of thin wrappers around the
C11 `<stdatomic.h>` primitives for each of eleven scalar types.  The embedding
below keeps the macro parameter `atomic_type` as an ordinary argument `T`, keeps
the handle as a pointer into an explicit heap, and makes every way a call can
leave defined behaviour an explicit `Fault`.

A memory order constrains what other threads may observe and in which order; the
wrappers forward it to the primitive unchecked, and in this state semantics the
result of a call does not depend on it.  Threads are modelled at the granularity
of the C11 atomic primitives: each primitive call is one indivisible step, and the
steps of different threads interleave.
-/

namespace StartCore

/-! ## C11 `memory_order` and the `SPMemoryOrder` enumeration -/

/-- The C11 enumerator `memory_order_relaxed` (first enumerator, value 0). -/
def memory_order_relaxed : Int := 0
/-- The C11 enumerator `memory_order_consume`. -/
def memory_order_consume : Int := 1
/-- The C11 enumerator `memory_order_acquire`. -/
def memory_order_acquire : Int := 2
/-- The C11 enumerator `memory_order_release`. -/
def memory_order_release : Int := 3
/-- The C11 enumerator `memory_order_acq_rel`. -/
def memory_order_acq_rel : Int := 4
/-- The C11 enumerator `memory_order_seq_cst`. -/
def memory_order_seq_cst : Int := 5

/-- Enumerator of `SPMemoryOrder`, Atomic.h line 34. -/
def SPMemoryOrderRelaxed : Int := memory_order_relaxed
/-- Enumerator of `SPMemoryOrder`, Atomic.h line 35. -/
def SPMemoryOrderConsume : Int := memory_order_consume
/-- Enumerator of `SPMemoryOrder`, Atomic.h line 36. -/
def SPMemoryOrderAcquire : Int := memory_order_acquire
/-- Enumerator of `SPMemoryOrder`, Atomic.h line 37: the initialiser written in the
header is `memory_order_relaxed`. -/
def SPMemoryOrderRelease : Int := memory_order_relaxed
/-- Enumerator of `SPMemoryOrder`, Atomic.h line 38. -/
def SPMemoryOrderAcquireAndRelease : Int := memory_order_acq_rel
/-- Enumerator of `SPMemoryOrder`, Atomic.h line 39. -/
def SPMemoryOrderSequentiallyConsistent : Int := memory_order_seq_cst

/-- The six enumerators of `SPMemoryOrder`, in declaration order. -/
def SPMemoryOrder_enumerators : List Int :=
  [SPMemoryOrderRelaxed, SPMemoryOrderConsume, SPMemoryOrderAcquire, SPMemoryOrderRelease,
   SPMemoryOrderAcquireAndRelease, SPMemoryOrderSequentiallyConsistent]

/-! ## Scalar types -/

/-- The `atomic_type` macro argument: the C11 atomic typedef `atomic_<name>` a cell is made of. -/
inductive AtomicType where
  | bool | schar | uchar | short | ushort | int | uint | long | ulong | llong | ullong
  deriving DecidableEq, Repr

/-- The `swift_type` macro argument: one entry per instantiation in Atomic.h lines 106-130. -/
inductive SwiftType where
  | Bool | Int8 | UInt8 | Int16 | UInt16 | Int32 | UInt32 | Int | UInt | Int64 | UInt64
  deriving DecidableEq, Repr

/-- The instantiation table of Atomic.h lines 106-130; `lp64` is the value of the
preprocessor test `defined(__LP64__) && __LP64__` on line 122. -/
def atomic_type (lp64 : Bool) : SwiftType → AtomicType
  | .Bool => .bool
  | .Int8 => .schar
  | .UInt8 => .uchar
  | .Int16 => .short
  | .UInt16 => .ushort
  | .Int32 => .int
  | .UInt32 => .uint
  | .Int => if lp64 then .long else .int
  | .UInt => if lp64 then .ulong else .uint
  | .Int64 => .llong
  | .UInt64 => .ullong

/-- Width in bits of the object an atomic operation acts on.  `_Bool` occupies one
byte; `long` is instantiated only under `__LP64__`, where it has 64 bits. -/
def AtomicType.bits : AtomicType → Nat
  | .bool => 8
  | .schar => 8
  | .uchar => 8
  | .short => 16
  | .ushort => 16
  | .int => 32
  | .uint => 32
  | .long => 64
  | .ulong => 64
  | .llong => 64
  | .ullong => 64

/-- Whether the type is a signed integer type. -/
def AtomicType.signed : AtomicType → Bool
  | .schar | .short | .int | .long | .llong => true
  | _ => false

/-- Whether the type is one of the ten integer cell types (everything but `bool`). -/
def AtomicType.isInteger : AtomicType → Bool
  | .bool => false
  | _ => true

/-- The values of the type: `false`/`true` as 0/1 for `bool`, the two's-complement
range for a signed type, `[0, 2^bits)` for an unsigned one. -/
def AtomicType.valid (T : AtomicType) (v : Int) : Prop :=
  match T with
  | .bool => v = 0 ∨ v = 1
  | _ =>
    if T.signed then -(2 : Int) ^ (T.bits - 1) ≤ v ∧ v < (2 : Int) ^ (T.bits - 1)
    else 0 ≤ v ∧ v < (2 : Int) ^ T.bits

instance (T : AtomicType) (v : Int) : Decidable (T.valid v) := by
  unfold AtomicType.valid
  cases T <;> simp only [] <;> infer_instance

/-- Reduction of a mathematical integer to the `bits`-wide object: modulo `2^bits`
for an unsigned type, two's-complement wraparound for a signed one (C11 7.17.7.5:
atomic arithmetic on signed types wraps silently, with no undefined results). -/
def AtomicType.wrap (T : AtomicType) (x : Int) : Int :=
  if T.signed then
    (x + (2 : Int) ^ (T.bits - 1)) % (2 : Int) ^ T.bits - (2 : Int) ^ (T.bits - 1)
  else x % (2 : Int) ^ T.bits

/-- The `action` macro argument of `SP_ATOMIC_TYPE_FETCH`, Atomic.h lines 93-97. -/
inductive Action where
  | add | sub | or | xor | and
  deriving DecidableEq, Repr

/-- The mathematical operation `atomic_fetch_<action>` applies to the old value and the operand. -/
def Action.apply : Action → Int → Int → Int
  | .add, a, b => a + b
  | .sub, a, b => a - b
  | .or, a, b => Int.lor a b
  | .xor, a, b => Int.xor a b
  | .and, a, b => Int.land a b

/-! ## Heap, handles and faults -/

/-- How a call leaves defined behaviour. -/
inductive Fault where
  /-- An access through the null pointer. -/
  | nullPointer
  /-- An access through a pointer that is not a live cell. -/
  | deadHandle
  deriving DecidableEq, Repr

/-- The heap: the value of the live atomic object at each address, `none` where there is none. -/
abbrev Heap := Nat → Option Int

/-- The null pointer. -/
def NULL : Nat := 0

/-- The heap with no live cell. -/
def Heap.empty : Heap := fun _ => none

/-- The heap `h` with the object at `p` set to `v`. -/
def Heap.set (h : Heap) (p : Nat) (v : Option Int) : Heap :=
  fun a => if a = p then v else h a

/-- Reading the atomic object a pointer designates. -/
def deref (p : Nat) (h : Heap) : Except Fault Int :=
  if p = NULL then .error .nullPointer
  else match h p with
    | none => .error .deadHandle
    | some v => .ok v

/-- A handle is live when it is non-null and designates an object holding `v`. -/
def Live (h : Heap) (p : Nat) (v : Int) : Prop := p ≠ NULL ∧ h p = some v

/-! ## The `<stdatomic.h>` primitives the wrappers call -/

/-- C11 `atomic_init(obj, value)`: a plain initialising write through `obj`. -/
def atomic_init (p : Nat) (value : Int) (h : Heap) : Except Fault Heap :=
  if p = NULL then .error .nullPointer else .ok (h.set p (some value))

/-- C11 `atomic_store(obj, desired)`. -/
def atomic_store (p : Nat) (value : Int) (h : Heap) : Except Fault (Unit × Heap) :=
  match deref p h with
  | .error e => .error e
  | .ok _ => .ok ((), h.set p (some value))

/-- C11 `atomic_store_explicit(obj, desired, order)`: the same write; `order` only
constrains what other threads observe. -/
def atomic_store_explicit (p : Nat) (value : Int) (_order : Int) (h : Heap) :
    Except Fault (Unit × Heap) :=
  atomic_store p value h

/-- C11 `atomic_load(obj)`. -/
def atomic_load (p : Nat) (h : Heap) : Except Fault (Int × Heap) :=
  match deref p h with
  | .error e => .error e
  | .ok v => .ok (v, h)

/-- C11 `atomic_load_explicit(obj, order)`: the same read, whatever `order` is passed;
nothing inspects the order before the value is read. -/
def atomic_load_explicit (p : Nat) (_order : Int) (h : Heap) : Except Fault (Int × Heap) :=
  atomic_load p h

/-- C11 `atomic_exchange(obj, desired)`: writes `desired`, yields the old value. -/
def atomic_exchange (p : Nat) (value : Int) (h : Heap) : Except Fault (Int × Heap) :=
  match deref p h with
  | .error e => .error e
  | .ok old => .ok (old, h.set p (some value))

/-- C11 `atomic_exchange_explicit(obj, desired, order)`: the same read-modify-write. -/
def atomic_exchange_explicit (p : Nat) (value : Int) (_order : Int) (h : Heap) :
    Except Fault (Int × Heap) :=
  atomic_exchange p value h

/-- C11 `atomic_fetch_<action>(obj, operand)`: replaces the old value by the result
of the operation reduced to the width of the object, and yields the old value.
For `atomic_bool` the operation acts on the one-byte object like on `uchar`. -/
def atomic_fetch (T : AtomicType) (action : Action) (p : Nat) (value : Int) (h : Heap) :
    Except Fault (Int × Heap) :=
  match deref p h with
  | .error e => .error e
  | .ok old => .ok (old, h.set p (some (T.wrap (action.apply old value))))

/-- C11 `atomic_fetch_<action>_explicit(obj, operand, order)`: the same
read-modify-write. -/
def atomic_fetch_explicit (T : AtomicType) (action : Action) (p : Nat) (value : Int)
    (_order : Int) (h : Heap) : Except Fault (Int × Heap) :=
  atomic_fetch T action p value h

/-! ## The wrappers of Atomic.h -/

/-- The wrapper `spa_<name>_create(value)`, Atomic.h lines 44-48.  `mallocResult` is what
the call `malloc(sizeof(atomic_T))` on line 45 returned: `NULL` when the allocator
cannot provide storage, the address of the new storage otherwise.  The result of
`malloc` goes to `atomic_init` unchecked and is then returned as the handle. -/
def spa_create (_T : AtomicType) (mallocResult : Nat) (value : Int) (h : Heap) :
    Except Fault (Nat × Heap) :=
  let result := mallocResult
  match atomic_init result value h with
  | .error e => .error e
  | .ok h1 => .ok (result, h1)

/-- The wrapper `spa_<name>_free(handle)`, Atomic.h lines 49-51: `free` accepts `NULL`
and otherwise needs a live allocation. -/
def spa_free (_T : AtomicType) (p : Nat) (h : Heap) : Except Fault (Unit × Heap) :=
  if p = NULL then .ok ((), h)
  else match h p with
    | none => .error .deadHandle
    | some _ => .ok ((), h.set p none)

/-- The wrapper `spa_<name>_store`, Atomic.h lines 54-56. -/
def spa_store (_T : AtomicType) (p : Nat) (value : Int) (h : Heap) : Except Fault (Unit × Heap) :=
  atomic_store p value h

/-- The wrapper `spa_<name>_store_explicit`, Atomic.h lines 57-60. -/
def spa_store_explicit (_T : AtomicType) (p : Nat) (value : Int) (order : Int) (h : Heap) :
    Except Fault (Unit × Heap) :=
  atomic_store_explicit p value order h

/-- The wrapper `spa_<name>_load`, Atomic.h lines 63-65. -/
def spa_load (_T : AtomicType) (p : Nat) (h : Heap) : Except Fault (Int × Heap) :=
  atomic_load p h

/-- The wrapper `spa_<name>_load_explicit`, Atomic.h lines 66-69. -/
def spa_load_explicit (_T : AtomicType) (p : Nat) (order : Int) (h : Heap) :
    Except Fault (Int × Heap) :=
  atomic_load_explicit p order h

/-- The wrapper `spa_<name>_exchange`, Atomic.h lines 72-74. -/
def spa_exchange (_T : AtomicType) (p : Nat) (value : Int) (h : Heap) :
    Except Fault (Int × Heap) :=
  atomic_exchange p value h

/-- The wrapper `spa_<name>_exchange_explicit`, Atomic.h lines 75-78. -/
def spa_exchange_explicit (_T : AtomicType) (p : Nat) (value : Int) (order : Int) (h : Heap) :
    Except Fault (Int × Heap) :=
  atomic_exchange_explicit p value order h

/-- The wrapper `spa_<name>_<action>`, Atomic.h lines 81-83: the value the primitive
yields is dropped, the function returns `void`. -/
def spa_fetch (T : AtomicType) (action : Action) (p : Nat) (value : Int) (h : Heap) :
    Except Fault (Unit × Heap) :=
  match atomic_fetch T action p value h with
  | .error e => .error e
  | .ok (_, h1) => .ok ((), h1)

/-- The wrapper `spa_<name>_<action>_explicit`, Atomic.h lines 84-87. -/
def spa_fetch_explicit (T : AtomicType) (action : Action) (p : Nat) (value : Int)
    (order : Int) (h : Heap) : Except Fault (Unit × Heap) :=
  match atomic_fetch_explicit T action p value order h with
  | .error e => .error e
  | .ok (_, h1) => .ok ((), h1)

/-- Sequencing of two calls: the second runs on the heap the first left. -/
def andThen {α β : Type} (r : Except Fault (α × Heap))
    (k : α → Heap → Except Fault (β × Heap)) : Except Fault (β × Heap) :=
  match r with
  | .error e => .error e
  | .ok (a, h) => k a h

/-! ## Threads

A thread runs a sequence of calls of C11 atomic primitives.  C11 7.17.7 makes each
such call indivisible; between two calls of one thread any other thread may run.
A thread keeps the value its last primitive yielded, so that code which reads a
cell and later writes a value computed from what it read can be expressed, and is
then two steps which other threads can come between. -/

/-- One call of a C11 atomic primitive in the code of a thread. -/
inductive Instr where
  /-- The call `r = atomic_load(p)`. -/
  | load (p : Nat)
  /-- The call `atomic_store(p, value r)`, `r` being what the thread last read. -/
  | store (p : Nat) (value : Int → Int)
  /-- The call `r = atomic_fetch_<action>(p, value)`. -/
  | fetch (T : AtomicType) (action : Action) (p : Nat) (value : Int)

/-- A thread: the value its last primitive yielded and the calls it still has to make. -/
structure Thread where
  /-- The value the last primitive yielded. -/
  reg : Int
  /-- The calls still to be made, in program order. -/
  code : List Instr

/-- One primitive call of a thread holding `reg`: the value the thread holds
afterwards and the new heap. -/
def Instr.exec (i : Instr) (reg : Int) (h : Heap) : Except Fault (Int × Heap) :=
  match i with
  | .load p => atomic_load p h
  | .store p value =>
    match atomic_store p (value reg) h with
    | .error e => .error e
    | .ok (_, h1) => .ok (reg, h1)
  | .fetch T action p value => atomic_fetch T action p value h

/-- The body of `spa_<name>_<action>(handle, value)`, Atomic.h lines 81-83, as thread
code: the single statement `atomic_fetch_<action>(handle, value);`. -/
def spa_fetch_code (T : AtomicType) (action : Action) (p : Nat) (value : Int) : List Instr :=
  [.fetch T action p value]

/-- For comparison only, not in Atomic.h: an increment written as an atomic load
followed by an atomic store of the value read plus one. -/
def load_then_store_increment (T : AtomicType) (p : Nat) : List Instr :=
  [.load p, .store p (fun r => T.wrap (r + 1))]

/-- The scheduler lets thread `i` make its next primitive call.  A thread that has
finished, or an index that names no thread, leaves everything as it is. -/
def stepThread (i : Nat) (pool : List Thread) (h : Heap) : Except Fault (List Thread × Heap) :=
  match pool[i]? with
  | some ⟨reg, c :: rest⟩ =>
    match c.exec reg h with
    | .error e => .error e
    | .ok (r1, h1) => .ok (pool.set i ⟨r1, rest⟩, h1)
  | _ => .ok (pool, h)

/-- The execution in which the threads make their calls in the order of the schedule. -/
def runSchedule : List Nat → List Thread → Heap → Except Fault (List Thread × Heap)
  | [], pool, h => .ok (pool, h)
  | i :: rest, pool, h =>
    match stepThread i pool h with
    | .error e => .error e
    | .ok (pool1, h1) => runSchedule rest pool1 h1

/-- The number of threads that have made all their calls. -/
def finishedThreads (pool : List Thread) : Nat := pool.countP (fun t => t.code.isEmpty)

/-! ## Basic facts about the heap -/

theorem Heap.set_same (h : Heap) (p : Nat) (v : Option Int) : (h.set p v) p = v := by
  simp [Heap.set]

theorem Heap.set_other (h : Heap) (p q : Nat) (v : Option Int) (hq : q ≠ p) :
    (h.set p v) q = h q := by
  simp [Heap.set, hq]

theorem Heap.set_set (h : Heap) (p : Nat) (v w : Option Int) :
    (h.set p v).set p w = h.set p w := by
  funext a
  by_cases ha : a = p <;> simp [Heap.set, ha]

theorem deref_live {h : Heap} {p : Nat} {v : Int} (hl : Live h p v) : deref p h = .ok v := by
  obtain ⟨hp, hv⟩ := hl
  simp [deref, hp, hv]

theorem live_set (h : Heap) (p : Nat) (v : Int) (hp : p ≠ NULL) : Live (h.set p (some v)) p v :=
  ⟨hp, Heap.set_same h p (some v)⟩

/-! ## Reduction to the width of the object -/

theorem wrap_valid (T : AtomicType) (x : Int) (hT : T.isInteger = true) : T.valid (T.wrap x) := by
  cases T <;>
    simp [AtomicType.isInteger, AtomicType.valid, AtomicType.wrap, AtomicType.signed,
      AtomicType.bits] at hT ⊢ <;> omega

theorem wrap_of_valid (T : AtomicType) (v : Int) (hv : T.valid v) : T.wrap v = v := by
  cases T <;>
    simp [AtomicType.valid, AtomicType.wrap, AtomicType.signed, AtomicType.bits] at hv ⊢ <;> omega

theorem wrap_congr (T : AtomicType) (y : Int) :
    (T.wrap y - y) % (2 : Int) ^ T.bits = 0 := by
  cases T <;> simp [AtomicType.wrap, AtomicType.signed, AtomicType.bits] <;> omega

/-! ## Bitwise operations stay inside the type -/

theorem nat_ldiff_lt (m n k : Nat) (hm : m < 2 ^ k) : Nat.ldiff m n < 2 ^ k := by
  apply Nat.lt_pow_two_of_testBit
  intro i hi
  rw [Nat.testBit_ldiff]
  have : m.testBit i = false :=
    Nat.testBit_lt_two_pow (lt_of_lt_of_le hm (Nat.pow_le_pow_right (by decide) hi))
  simp [this]

theorem int_bitwise_range (k : Nat) (a b : Int)
    (ha : -(2 : Int) ^ k ≤ a ∧ a < (2 : Int) ^ k) (hb : -(2 : Int) ^ k ≤ b ∧ b < (2 : Int) ^ k) :
    (-(2 : Int) ^ k ≤ Int.lor a b ∧ Int.lor a b < (2 : Int) ^ k) ∧
    (-(2 : Int) ^ k ≤ Int.xor a b ∧ Int.xor a b < (2 : Int) ^ k) ∧
    (-(2 : Int) ^ k ≤ Int.land a b ∧ Int.land a b < (2 : Int) ^ k) := by
  have hpow : (2 : Int) ^ k = ((2 ^ k : Nat) : Int) := by push_cast; rfl
  rw [hpow] at ha hb ⊢
  rcases a with m | m <;> rcases b with n | n <;>
    simp only [Int.ofNat_eq_coe, Int.lor, Int.xor, Int.land, Int.negSucc_eq] at ha hb ⊢
  · have hm : m < 2 ^ k := by omega
    have hn : n < 2 ^ k := by omega
    have h1 := Nat.or_lt_two_pow hm hn
    have h2 := Nat.xor_lt_two_pow hm hn
    have h3 := Nat.and_lt_two_pow m hn
    omega
  · have hm : m < 2 ^ k := by omega
    have hn : n < 2 ^ k := by omega
    have h1 := nat_ldiff_lt n m k hn
    have h2 := Nat.xor_lt_two_pow hm hn
    have h3 := nat_ldiff_lt m n k hm
    omega
  · have hm : m < 2 ^ k := by omega
    have hn : n < 2 ^ k := by omega
    have h1 := nat_ldiff_lt m n k hm
    have h2 := Nat.xor_lt_two_pow hm hn
    have h3 := nat_ldiff_lt n m k hn
    omega
  · have hm : m < 2 ^ k := by omega
    have hn : n < 2 ^ k := by omega
    have h1 := Nat.or_lt_two_pow hm hn
    have h2 := Nat.xor_lt_two_pow hm hn
    have h3 := Nat.and_lt_two_pow m hn
    omega

theorem int_bitwise_nonneg (a b : Int) (ha : 0 ≤ a) (hb : 0 ≤ b) :
    0 ≤ Int.lor a b ∧ 0 ≤ Int.xor a b ∧ 0 ≤ Int.land a b := by
  rcases a with m | m <;> rcases b with n | n <;>
    simp only [Int.ofNat_eq_coe, Int.lor, Int.xor, Int.land, Int.negSucc_eq] at ha hb ⊢ <;> omega

theorem int_bitwise_unsigned (k : Nat) (a b : Int)
    (ha : 0 ≤ a ∧ a < (2 : Int) ^ k) (hb : 0 ≤ b ∧ b < (2 : Int) ^ k) :
    (0 ≤ Int.lor a b ∧ Int.lor a b < (2 : Int) ^ k) ∧
    (0 ≤ Int.xor a b ∧ Int.xor a b < (2 : Int) ^ k) ∧
    (0 ≤ Int.land a b ∧ Int.land a b < (2 : Int) ^ k) := by
  have hk : (0 : Int) < (2 : Int) ^ k := by positivity
  obtain ⟨⟨_, h1⟩, ⟨_, h2⟩, ⟨_, h3⟩⟩ :=
    int_bitwise_range k a b ⟨by omega, ha.2⟩ ⟨by omega, hb.2⟩
  obtain ⟨n1, n2, n3⟩ := int_bitwise_nonneg a b ha.1 hb.1
  exact ⟨⟨n1, h1⟩, ⟨n2, h2⟩, ⟨n3, h3⟩⟩

theorem bitwise_valid (T : AtomicType) (a b : Int) (hT : T.isInteger = true)
    (ha : T.valid a) (hb : T.valid b) :
    T.valid (Int.lor a b) ∧ T.valid (Int.xor a b) ∧ T.valid (Int.land a b) := by
  cases T
  · simp [AtomicType.isInteger] at hT
  · obtain ⟨h1, h2, h3⟩ := int_bitwise_range 7 a b ha hb
    exact ⟨h1, h2, h3⟩
  · obtain ⟨h1, h2, h3⟩ := int_bitwise_unsigned 8 a b ha hb
    exact ⟨h1, h2, h3⟩
  · obtain ⟨h1, h2, h3⟩ := int_bitwise_range 15 a b ha hb
    exact ⟨h1, h2, h3⟩
  · obtain ⟨h1, h2, h3⟩ := int_bitwise_unsigned 16 a b ha hb
    exact ⟨h1, h2, h3⟩
  · obtain ⟨h1, h2, h3⟩ := int_bitwise_range 31 a b ha hb
    exact ⟨h1, h2, h3⟩
  · obtain ⟨h1, h2, h3⟩ := int_bitwise_unsigned 32 a b ha hb
    exact ⟨h1, h2, h3⟩
  · obtain ⟨h1, h2, h3⟩ := int_bitwise_range 63 a b ha hb
    exact ⟨h1, h2, h3⟩
  · obtain ⟨h1, h2, h3⟩ := int_bitwise_unsigned 64 a b ha hb
    exact ⟨h1, h2, h3⟩
  · obtain ⟨h1, h2, h3⟩ := int_bitwise_range 63 a b ha hb
    exact ⟨h1, h2, h3⟩
  · obtain ⟨h1, h2, h3⟩ := int_bitwise_unsigned 64 a b ha hb
    exact ⟨h1, h2, h3⟩

/-! ## The wrappers on a live cell -/

theorem spa_load_live (T : AtomicType) {h : Heap} {p : Nat} {v : Int} (hl : Live h p v) :
    spa_load T p h = .ok (v, h) := by
  simp [spa_load, atomic_load, deref_live hl]

theorem spa_store_live (T : AtomicType) {h : Heap} {p : Nat} {old : Int} (v : Int)
    (hl : Live h p old) : spa_store T p v h = .ok ((), h.set p (some v)) := by
  simp [spa_store, atomic_store, deref_live hl]

theorem spa_exchange_live (T : AtomicType) {h : Heap} {p : Nat} {old : Int} (v : Int)
    (hl : Live h p old) : spa_exchange T p v h = .ok (old, h.set p (some v)) := by
  simp [spa_exchange, atomic_exchange, deref_live hl]

theorem spa_fetch_live (T : AtomicType) (a : Action) {h : Heap} {p : Nat} {old : Int} (x : Int)
    (hl : Live h p old) :
    spa_fetch T a p x h = .ok ((), h.set p (some (T.wrap (a.apply old x)))) := by
  simp [spa_fetch, atomic_fetch, deref_live hl]

theorem spa_exchange_explicit_live (T : AtomicType) {h : Heap} {p : Nat} {old : Int}
    (v order : Int) (hl : Live h p old) :
    spa_exchange_explicit T p v order h = .ok (old, h.set p (some v)) := by
  simp [spa_exchange_explicit, atomic_exchange_explicit, atomic_exchange, deref_live hl]

theorem spa_fetch_explicit_live (T : AtomicType) (a : Action) {h : Heap} {p : Nat} {old : Int}
    (x order : Int) (hl : Live h p old) :
    spa_fetch_explicit T a p x order h = .ok ((), h.set p (some (T.wrap (a.apply old x)))) := by
  simp [spa_fetch_explicit, atomic_fetch_explicit, atomic_fetch, deref_live hl]

/-! ## The instantiation table -/

theorem atomic_type_isInteger (lp64 : Bool) (S : SwiftType) :
    (atomic_type lp64 S).isInteger = decide (S ≠ .Bool) := by
  cases S <;> cases lp64 <;> rfl

theorem atomic_type_bits (lp64 : Bool) :
    (atomic_type lp64 .Int8).bits = 8 ∧ (atomic_type lp64 .UInt8).bits = 8 ∧
    (atomic_type lp64 .Int16).bits = 16 ∧ (atomic_type lp64 .UInt16).bits = 16 ∧
    (atomic_type lp64 .Int32).bits = 32 ∧ (atomic_type lp64 .UInt32).bits = 32 ∧
    (atomic_type lp64 .Int).bits = (if lp64 then 64 else 32) ∧
    (atomic_type lp64 .UInt).bits = (if lp64 then 64 else 32) ∧
    (atomic_type lp64 .Int64).bits = 64 ∧ (atomic_type lp64 .UInt64).bits = 64 := by
  cases lp64 <;> decide

/-! ## Supporting facts: creation, explicit loads, and values that stay in the type -/

theorem spa_create_ok (T : AtomicType) (m : Nat) (v : Int) (h : Heap) (hm : m ≠ NULL) :
    spa_create T m v h = .ok (m, h.set m (some v)) := by
  simp [spa_create, atomic_init, hm]

theorem spa_load_explicit_live (T : AtomicType) {h : Heap} {p : Nat} {v : Int} (order : Int)
    (hl : Live h p v) : spa_load_explicit T p order h = .ok (v, h) := by
  simp [spa_load_explicit, atomic_load_explicit, atomic_load, deref_live hl]

theorem store_exchange_keep_valid (T : AtomicType) (p : Nat) (old x : Int) (h : Heap)
    (hl : Live h p old) (hx : T.valid x) :
    (∃ h1, spa_store T p x h = .ok ((), h1) ∧ Live h1 p x ∧ T.valid x) ∧
    (∃ h1, spa_exchange T p x h = .ok (old, h1) ∧ Live h1 p x ∧ T.valid x) :=
  ⟨⟨_, spa_store_live T x hl, live_set h p x hl.1, hx⟩,
   ⟨_, spa_exchange_live T x hl, live_set h p x hl.1, hx⟩⟩

theorem integer_fetch_keeps_valid (T : AtomicType) (a : Action) (p : Nat) (old x : Int)
    (h : Heap) (hT : T.isInteger = true) (hl : Live h p old) :
    ∃ h1 w, spa_fetch T a p x h = .ok ((), h1) ∧ Live h1 p w ∧ T.valid w :=
  ⟨_, _, spa_fetch_live T a x hl, live_set h p _ hl.1, wrap_valid T _ hT⟩

theorem bool_bitwise_keeps_valid (a : Action) (p : Nat) (old x : Int) (h : Heap)
    (ha : a = .or ∨ a = .xor ∨ a = .and) (hl : Live h p old)
    (hold : AtomicType.valid .bool old) (hx : AtomicType.valid .bool x) :
    ∃ h1 w, spa_fetch .bool a p x h = .ok ((), h1) ∧ Live h1 p w ∧ AtomicType.valid .bool w := by
  refine ⟨_, _, spa_fetch_live .bool a x hl, live_set h p _ hl.1, ?_⟩
  simp only [AtomicType.valid] at hold hx
  rcases ha with rfl | rfl | rfl <;> rcases hold with rfl | rfl <;> rcases hx with rfl | rfl <;>
    decide

/-! ## Claims -/

/-- C1: for every cell type `T` and every value `v`, when `spa_T_create(v)` succeeds
and returns the handle `r`, `spa_T_load(r)` returns `v` (and leaves the heap as
`create` left it). -/
theorem C1_load_create (T : AtomicType) (m : Nat) (v : Int) (h : Heap) (r : Nat) (h1 : Heap)
    (hc : spa_create T m v h = .ok (r, h1)) : spa_load T r h1 = .ok (v, h1) := by
  unfold spa_create atomic_init at hc
  by_cases hm : m = NULL
  · simp [hm] at hc
  · simp only [hm, if_false] at hc
    injection hc with hc
    injection hc with hr hh
    subst hr hh
    exact spa_load_live T (live_set h m v hm)

/-- Witness of C1: an `int` cell created with 42 at address 1 of the empty heap. -/
theorem C1_load_create_witness :
    spa_create .int 1 42 Heap.empty = .ok (1, Heap.empty.set 1 (some 42)) ∧
    spa_load .int 1 (Heap.empty.set 1 (some 42)) = .ok (42, Heap.empty.set 1 (some 42)) :=
  ⟨rfl, C1_load_create .int 1 42 Heap.empty 1 (Heap.empty.set 1 (some 42)) rfl⟩

/-- C2: on a live cell `p` of any type, whatever value it holds, the sequence
`store(p, v1); store(p, v2); load(p)` returns `v2`, and the heap differs from the
initial one only by `p` holding `v2`. -/
theorem C2_last_store_wins (T : AtomicType) (p : Nat) (old v1 v2 : Int) (h : Heap)
    (hl : Live h p old) :
    andThen (spa_store T p v1 h) (fun _ h1 =>
      andThen (spa_store T p v2 h1) (fun _ h2 => spa_load T p h2))
      = .ok (v2, h.set p (some v2)) := by
  have l1 : Live (h.set p (some v1)) p v1 := live_set h p v1 hl.1
  have l2 : Live (h.set p (some v2)) p v2 := live_set h p v2 hl.1
  simp only [andThen, spa_store_live T v1 hl, spa_store_live T v2 l1, Heap.set_set,
    spa_load_live T l2]

/-- Witness of C2: a `uchar` cell at address 1 holding 9, stored 200 then 3. -/
theorem C2_last_store_wins_witness :
    Live (Heap.empty.set 1 (some 9)) 1 9 ∧
    andThen (spa_store .uchar 1 200 (Heap.empty.set 1 (some 9))) (fun _ h1 =>
      andThen (spa_store .uchar 1 3 h1) (fun _ h2 => spa_load .uchar 1 h2))
      = .ok (3, (Heap.empty.set 1 (some 9)).set 1 (some 3)) :=
  ⟨⟨by decide, rfl⟩,
   C2_last_store_wins .uchar 1 9 200 3 (Heap.empty.set 1 (some 9)) ⟨by decide, rfl⟩⟩

/-- C3: on a live cell `p` holding `old`, `exchange(p, v)` and `exchange_explicit(p, v, order)`
for each of the six `SPMemoryOrder` enumerators return `old` and leave the cell
holding `v`, so that a following `load(p)` returns `v`. -/
theorem C3_exchange (T : AtomicType) (p : Nat) (old v : Int) (h : Heap) (hl : Live h p old) :
    spa_exchange T p v h = .ok (old, h.set p (some v)) ∧
    (∀ order ∈ SPMemoryOrder_enumerators,
      spa_exchange_explicit T p v order h = .ok (old, h.set p (some v))) ∧
    spa_load T p (h.set p (some v)) = .ok (v, h.set p (some v)) := by
  refine ⟨spa_exchange_live T v hl, ?_, spa_load_live T (live_set h p v hl.1)⟩
  intro order _
  exact spa_exchange_explicit_live T v order hl

/-- Witness of C3: an `int` cell at address 2 holding -5, exchanged for 11. -/
theorem C3_exchange_witness :
    Live (Heap.empty.set 2 (some (-5))) 2 (-5) ∧
    (spa_exchange .int 2 11 (Heap.empty.set 2 (some (-5)))
        = .ok (-5, (Heap.empty.set 2 (some (-5))).set 2 (some 11)) ∧
     (∀ order ∈ SPMemoryOrder_enumerators,
        spa_exchange_explicit .int 2 11 order (Heap.empty.set 2 (some (-5)))
          = .ok (-5, (Heap.empty.set 2 (some (-5))).set 2 (some 11))) ∧
     spa_load .int 2 ((Heap.empty.set 2 (some (-5))).set 2 (some 11))
        = .ok (11, (Heap.empty.set 2 (some (-5))).set 2 (some 11))) :=
  ⟨⟨by decide, rfl⟩,
   C3_exchange .int 2 (-5) 11 (Heap.empty.set 2 (some (-5))) ⟨by decide, rfl⟩⟩

/-- C4: on a live cell `p` of an integer type `T` holding `old`, with an operand `x`
of `T`, the five wrappers `spa_T_add`, `spa_T_sub`, `spa_T_or`, `spa_T_xor`,
`spa_T_and` and their `_explicit` forms (for the six `SPMemoryOrder` enumerators)
return nothing and change the heap only by `p` now holding, respectively,
`old + x` and `old - x` reduced to `T`, and the bitwise or, xor and and of `old`
and `x`.  Every one of these is a value of `T`; the reduced sum and difference are
congruent to `old + x` and `old - x` modulo `2^bits` and equal to them when they
are values of `T`; bit `k` of the bitwise results is the or, xor, and of bit `k` of
`old` and of `x`. -/
theorem C4_fetch (T : AtomicType) (p : Nat) (old x : Int) (h : Heap)
    (hT : T.isInteger = true) (hl : Live h p old) (hold : T.valid old) (hx : T.valid x) :
    (spa_fetch T .add p x h = .ok ((), h.set p (some (T.wrap (old + x)))) ∧
     spa_fetch T .sub p x h = .ok ((), h.set p (some (T.wrap (old - x)))) ∧
     spa_fetch T .or p x h = .ok ((), h.set p (some (Int.lor old x))) ∧
     spa_fetch T .xor p x h = .ok ((), h.set p (some (Int.xor old x))) ∧
     spa_fetch T .and p x h = .ok ((), h.set p (some (Int.land old x)))) ∧
    (∀ order ∈ SPMemoryOrder_enumerators,
     spa_fetch_explicit T .add p x order h = .ok ((), h.set p (some (T.wrap (old + x)))) ∧
     spa_fetch_explicit T .sub p x order h = .ok ((), h.set p (some (T.wrap (old - x)))) ∧
     spa_fetch_explicit T .or p x order h = .ok ((), h.set p (some (Int.lor old x))) ∧
     spa_fetch_explicit T .xor p x order h = .ok ((), h.set p (some (Int.xor old x))) ∧
     spa_fetch_explicit T .and p x order h = .ok ((), h.set p (some (Int.land old x)))) ∧
    (T.valid (T.wrap (old + x)) ∧ T.valid (T.wrap (old - x)) ∧ T.valid (Int.lor old x) ∧
     T.valid (Int.xor old x) ∧ T.valid (Int.land old x)) ∧
    ((T.wrap (old + x) - (old + x)) % (2 : Int) ^ T.bits = 0 ∧
     (T.wrap (old - x) - (old - x)) % (2 : Int) ^ T.bits = 0 ∧
     (T.valid (old + x) → T.wrap (old + x) = old + x) ∧
     (T.valid (old - x) → T.wrap (old - x) = old - x)) ∧
    (∀ k : Nat,
     (Int.lor old x).testBit k = (old.testBit k || x.testBit k) ∧
     (Int.xor old x).testBit k = Bool.xor (old.testBit k) (x.testBit k) ∧
     (Int.land old x).testBit k = (old.testBit k && x.testBit k)) := by
  obtain ⟨v1, v2, v3⟩ := bitwise_valid T old x hT hold hx
  have e1 : T.wrap (Action.apply .or old x) = Int.lor old x := wrap_of_valid T _ v1
  have e2 : T.wrap (Action.apply .xor old x) = Int.xor old x := wrap_of_valid T _ v2
  have e3 : T.wrap (Action.apply .and old x) = Int.land old x := wrap_of_valid T _ v3
  refine ⟨⟨spa_fetch_live T .add x hl, spa_fetch_live T .sub x hl, ?_, ?_, ?_⟩, ?_,
    ⟨wrap_valid T _ hT, wrap_valid T _ hT, v1, v2, v3⟩,
    ⟨wrap_congr T _, wrap_congr T _, wrap_of_valid T _, wrap_of_valid T _⟩, ?_⟩
  · rw [← e1]; exact spa_fetch_live T .or x hl
  · rw [← e2]; exact spa_fetch_live T .xor x hl
  · rw [← e3]; exact spa_fetch_live T .and x hl
  · intro order _
    refine ⟨spa_fetch_explicit_live T .add x order hl, spa_fetch_explicit_live T .sub x order hl,
      ?_, ?_, ?_⟩
    · rw [← e1]; exact spa_fetch_explicit_live T .or x order hl
    · rw [← e2]; exact spa_fetch_explicit_live T .xor x order hl
    · rw [← e3]; exact spa_fetch_explicit_live T .and x order hl
  · intro k
    exact ⟨Int.testBit_lor old x k, Int.testBit_lxor old x k, Int.testBit_land old x k⟩

/-- Witness of C4: a `short` cell at address 3 holding -4, operand 6: the cell then
holds 2 after add, -10 after sub, -2 after or, -6 after xor and 4 after and. -/
theorem C4_fetch_witness :
    AtomicType.isInteger .short = true ∧ Live (Heap.empty.set 3 (some (-4))) 3 (-4) ∧
    AtomicType.valid .short (-4) ∧ AtomicType.valid .short 6 ∧
    (spa_fetch .short .add 3 6 (Heap.empty.set 3 (some (-4)))
        = .ok ((), (Heap.empty.set 3 (some (-4))).set 3 (some 2)) ∧
     spa_fetch .short .sub 3 6 (Heap.empty.set 3 (some (-4)))
        = .ok ((), (Heap.empty.set 3 (some (-4))).set 3 (some (-10))) ∧
     spa_fetch .short .or 3 6 (Heap.empty.set 3 (some (-4)))
        = .ok ((), (Heap.empty.set 3 (some (-4))).set 3 (some (-2))) ∧
     spa_fetch .short .xor 3 6 (Heap.empty.set 3 (some (-4)))
        = .ok ((), (Heap.empty.set 3 (some (-4))).set 3 (some (-6))) ∧
     spa_fetch .short .and 3 6 (Heap.empty.set 3 (some (-4)))
        = .ok ((), (Heap.empty.set 3 (some (-4))).set 3 (some 4))) ∧
    (∀ order ∈ SPMemoryOrder_enumerators,
     spa_fetch_explicit .short .add 3 6 order (Heap.empty.set 3 (some (-4)))
        = .ok ((), (Heap.empty.set 3 (some (-4))).set 3 (some 2)) ∧
     spa_fetch_explicit .short .sub 3 6 order (Heap.empty.set 3 (some (-4)))
        = .ok ((), (Heap.empty.set 3 (some (-4))).set 3 (some (-10))) ∧
     spa_fetch_explicit .short .or 3 6 order (Heap.empty.set 3 (some (-4)))
        = .ok ((), (Heap.empty.set 3 (some (-4))).set 3 (some (-2))) ∧
     spa_fetch_explicit .short .xor 3 6 order (Heap.empty.set 3 (some (-4)))
        = .ok ((), (Heap.empty.set 3 (some (-4))).set 3 (some (-6))) ∧
     spa_fetch_explicit .short .and 3 6 order (Heap.empty.set 3 (some (-4)))
        = .ok ((), (Heap.empty.set 3 (some (-4))).set 3 (some 4))) := by
  have hadd : AtomicType.wrap .short (-4 + 6) = 2 := rfl
  have hsub : AtomicType.wrap .short (-4 - 6) = -10 := rfl
  have hor : Int.lor (-4) 6 = -2 := by
    show Int.lor (Int.negSucc 3) (Int.ofNat 6) = Int.negSucc 1
    simp [Int.lor, Nat.ldiff, Nat.bitwise]
  have hxor : Int.xor (-4) 6 = -6 := rfl
  have hand : Int.land (-4) 6 = 4 := by
    show Int.land (Int.negSucc 3) (Int.ofNat 6) = Int.ofNat 4
    simp [Int.land, Nat.ldiff, Nat.bitwise]
  have w := C4_fetch .short 3 (-4) 6 (Heap.empty.set 3 (some (-4))) rfl ⟨by decide, rfl⟩
    (by decide) (by decide)
  rw [hadd, hsub, hor, hxor, hand] at w
  exact ⟨rfl, ⟨by decide, rfl⟩, by decide, by decide, w.1, w.2.1⟩

/-- C5: `fetch_add` and `fetch_sub` on a live cell of an integer type never fault.  For
an unsigned type of width `w` the cell then holds `(old + x) mod 2^w` (resp.
`(old - x) mod 2^w`); for a signed type it holds the one value of
`[-2^(w-1), 2^(w-1))` congruent to `old + x` (resp. `old - x`) modulo `2^w`. -/
theorem C5_wraparound (T : AtomicType) (p : Nat) (old x : Int) (h : Heap)
    (hT : T.isInteger = true) (hl : Live h p old) :
    spa_fetch T .add p x h = .ok ((), h.set p (some (T.wrap (old + x)))) ∧
    spa_fetch T .sub p x h = .ok ((), h.set p (some (T.wrap (old - x)))) ∧
    (T.signed = false →
      T.wrap (old + x) = (old + x) % (2 : Int) ^ T.bits ∧
      T.wrap (old - x) = (old - x) % (2 : Int) ^ T.bits) ∧
    (T.signed = true →
      (-(2 : Int) ^ (T.bits - 1) ≤ T.wrap (old + x) ∧ T.wrap (old + x) < (2 : Int) ^ (T.bits - 1) ∧
        (T.wrap (old + x) - (old + x)) % (2 : Int) ^ T.bits = 0) ∧
      (-(2 : Int) ^ (T.bits - 1) ≤ T.wrap (old - x) ∧ T.wrap (old - x) < (2 : Int) ^ (T.bits - 1) ∧
        (T.wrap (old - x) - (old - x)) % (2 : Int) ^ T.bits = 0)) := by
  refine ⟨spa_fetch_live T .add x hl, spa_fetch_live T .sub x hl, ?_, ?_⟩
  · intro hs
    simp [AtomicType.wrap, hs]
  · intro hs
    cases T <;> simp [AtomicType.signed] at hs <;>
      simp [AtomicType.wrap, AtomicType.signed, AtomicType.bits] <;> omega

/-- Witness of C5: a `uchar` cell holding 255 holds 0 after `fetch_add(p, 1)`, and an
`schar` cell holding 127 holds -128 after `fetch_add(p, 1)`. -/
theorem C5_wraparound_witness :
    (AtomicType.isInteger .uchar = true ∧ Live (Heap.empty.set 1 (some 255)) 1 255 ∧
      spa_fetch .uchar .add 1 1 (Heap.empty.set 1 (some 255))
        = .ok ((), (Heap.empty.set 1 (some 255)).set 1 (some 0))) ∧
    (AtomicType.isInteger .schar = true ∧ Live (Heap.empty.set 1 (some 127)) 1 127 ∧
      spa_fetch .schar .add 1 1 (Heap.empty.set 1 (some 127))
        = .ok ((), (Heap.empty.set 1 (some 127)).set 1 (some (-128)))) :=
  ⟨⟨rfl, ⟨by decide, rfl⟩,
    (C5_wraparound .uchar 1 255 1 (Heap.empty.set 1 (some 255)) rfl ⟨by decide, rfl⟩).1⟩,
   ⟨rfl, ⟨by decide, rfl⟩,
    (C5_wraparound .schar 1 127 1 (Heap.empty.set 1 (some 127)) rfl ⟨by decide, rfl⟩).1⟩⟩

/-- C6: the header initialises `SPMemoryOrderRelease` with `memory_order_relaxed`, so
it has the value of `SPMemoryOrderRelaxed` and not that of `memory_order_release`;
the other five enumerators have the value of their native counterpart. -/
theorem C6_release_is_relaxed :
    SPMemoryOrderRelease = memory_order_relaxed ∧
    SPMemoryOrderRelease = SPMemoryOrderRelaxed ∧
    SPMemoryOrderRelease ≠ memory_order_release ∧
    SPMemoryOrderRelaxed = memory_order_relaxed ∧
    SPMemoryOrderConsume = memory_order_consume ∧
    SPMemoryOrderAcquire = memory_order_acquire ∧
    SPMemoryOrderAcquireAndRelease = memory_order_acq_rel ∧
    SPMemoryOrderSequentiallyConsistent = memory_order_seq_cst := by
  decide

/-- C7, as stated, fails: on an `int` cell at address 1 holding 7, `load_explicit`
with `SPMemoryOrderRelease` and with `SPMemoryOrderAcquireAndRelease` is not
rejected: each call returns 7 and leaves the heap unchanged. -/
theorem C7_release_load_not_rejected :
    spa_load_explicit .int 1 SPMemoryOrderRelease (Heap.empty.set 1 (some 7))
      = .ok (7, Heap.empty.set 1 (some 7)) ∧
    spa_load_explicit .int 1 SPMemoryOrderAcquireAndRelease (Heap.empty.set 1 (some 7))
      = .ok (7, Heap.empty.set 1 (some 7)) :=
  ⟨rfl, rfl⟩

/-- C7, amended: `load_explicit` makes no check of the order it is given.  On a live
cell of any type it returns the held value and leaves the heap unchanged for every
order passed, exactly as `load` does. -/
theorem C7_load_explicit_unchecked (T : AtomicType) (p : Nat) (old order : Int) (h : Heap)
    (hl : Live h p old) :
    spa_load_explicit T p order h = .ok (old, h) ∧
    spa_load_explicit T p order h = spa_load T p h :=
  ⟨spa_load_explicit_live T order hl, rfl⟩

/-- Witness of the amended C7: an `int` cell at address 1 holding 7, read with
`SPMemoryOrderAcquireAndRelease`. -/
theorem C7_load_explicit_unchecked_witness :
    Live (Heap.empty.set 1 (some 7)) 1 7 ∧
    (spa_load_explicit .int 1 SPMemoryOrderAcquireAndRelease (Heap.empty.set 1 (some 7))
        = .ok (7, Heap.empty.set 1 (some 7)) ∧
     spa_load_explicit .int 1 SPMemoryOrderAcquireAndRelease (Heap.empty.set 1 (some 7))
        = spa_load .int 1 (Heap.empty.set 1 (some 7))) :=
  ⟨⟨by decide, rfl⟩,
   C7_load_explicit_unchecked .int 1 7 SPMemoryOrderAcquireAndRelease
     (Heap.empty.set 1 (some 7)) ⟨by decide, rfl⟩⟩

/-- C8: when `malloc` yields `NULL`, `spa_T_create(v)` hands the null pointer to
`atomic_init`: the initialising write goes through the null pointer and the call
leaves defined behaviour, for every type, value and heap. -/
theorem C8_create_null_write (T : AtomicType) (v : Int) (h : Heap) :
    atomic_init NULL v h = .error .nullPointer ∧
    spa_create T NULL v h = .error .nullPointer :=
  ⟨rfl, rfl⟩

/-- C9: for every cell type, every state and all arguments, each default-ordering
entry point gives the same result and the same heap as its `_explicit` counterpart
called with `SPMemoryOrderSequentiallyConsistent` (also when the call faults). -/
theorem C9_default_is_seq_cst (T : AtomicType) (a : Action) (p : Nat) (v : Int) (h : Heap) :
    spa_store T p v h = spa_store_explicit T p v SPMemoryOrderSequentiallyConsistent h ∧
    spa_load T p h = spa_load_explicit T p SPMemoryOrderSequentiallyConsistent h ∧
    spa_exchange T p v h = spa_exchange_explicit T p v SPMemoryOrderSequentiallyConsistent h ∧
    spa_fetch T a p v h = spa_fetch_explicit T a p v SPMemoryOrderSequentiallyConsistent h :=
  ⟨rfl, rfl, rfl, rfl⟩

/-- C10: `fetch_add(p, true)` on a `bool` cell holding `true` leaves it holding 2, and
`fetch_sub(p, true)` on a `bool` cell holding `false` leaves it holding 255; neither
is a value of `bool`, although the cell and the operand were. -/
theorem C10_bool_fetch_leaves_bool :
    AtomicType.valid .bool 1 ∧ AtomicType.valid .bool 0 ∧
    spa_fetch .bool .add 1 1 (Heap.empty.set 1 (some 1))
      = .ok ((), (Heap.empty.set 1 (some 1)).set 1 (some 2)) ∧
    ¬ AtomicType.valid .bool 2 ∧
    spa_fetch .bool .sub 1 1 (Heap.empty.set 1 (some 0))
      = .ok ((), (Heap.empty.set 1 (some 0)).set 1 (some 255)) ∧
    ¬ AtomicType.valid .bool 255 :=
  ⟨by decide, by decide, rfl, by decide, rfl, by decide⟩

/-! ## Interleaved increments -/

theorem valid_of_le (T : AtomicType) (j k : Int) (hT : T.isInteger = true) (hk : T.valid k)
    (h0 : 0 ≤ j) (hj : j ≤ k) : T.valid j := by
  cases T <;>
    simp [AtomicType.isInteger, AtomicType.valid, AtomicType.signed, AtomicType.bits]
      at hT hk ⊢ <;> omega

theorem finishedThreads_set (pool : List Thread) (i : Nat) (t : Thread) (r : Int)
    (hi : pool[i]? = some t) (hne : t.code ≠ []) :
    finishedThreads (pool.set i ⟨r, []⟩) = finishedThreads pool + 1 := by
  induction pool generalizing i with
  | nil => simp at hi
  | cons u us ih =>
    cases i with
    | zero =>
      simp only [List.getElem?_cons_zero, Option.some.injEq] at hi
      subst hi
      simp [finishedThreads, List.countP_cons, hne]
    | succ n =>
      simp only [List.getElem?_cons_succ] at hi
      have := ih n hi
      simp only [finishedThreads, List.set_cons_succ, List.countP_cons] at this ⊢
      omega

theorem finishedThreads_all (pool : List Thread) (hall : ∀ t ∈ pool, t.code = []) :
    finishedThreads pool = pool.length := by
  induction pool with
  | nil => rfl
  | cons u us ih =>
    have hu : u.code = [] := hall u (List.mem_cons_self u us)
    have := ih (fun v hv => hall v (List.mem_cons_of_mem u hv))
    simp only [finishedThreads, List.countP_cons, List.length_cons] at this ⊢
    simp [this, hu]

theorem finishedThreads_none (pool : List Thread) (hall : ∀ t ∈ pool, t.code ≠ []) :
    finishedThreads pool = 0 := by
  induction pool with
  | nil => rfl
  | cons u us ih =>
    have hu : u.code ≠ [] := hall u (List.mem_cons_self u us)
    have := ih (fun v hv => hall v (List.mem_cons_of_mem u hv))
    simp only [finishedThreads, List.countP_cons] at this ⊢
    simp [this, hu]

theorem stepThread_increment (T : AtomicType) (p K : Nat) (i : Nat) (pool : List Thread)
    (h : Heap) (hT : T.isInteger = true) (hK : T.valid (K : Int)) (hlen : pool.length = K)
    (hmem : ∀ t ∈ pool, t.code = [] ∨ t.code = spa_fetch_code T .add p 1)
    (hl : Live h p (finishedThreads pool : Int)) :
    ∃ pool1 h1, stepThread i pool h = .ok (pool1, h1) ∧ pool1.length = K ∧
      (∀ t ∈ pool1, t.code = [] ∨ t.code = spa_fetch_code T .add p 1) ∧
      Live h1 p (finishedThreads pool1 : Int) ∧
      (∀ j : Nat, pool[j]?.map Thread.code = some [] → pool1[j]?.map Thread.code = some []) ∧
      (i < K → pool1[i]?.map Thread.code = some []) := by
  cases hget : pool[i]? with
  | none =>
    refine ⟨pool, h, by simp [stepThread, hget], hlen, hmem, hl, fun _ hj => hj, ?_⟩
    intro hi
    have : i < pool.length := by omega
    simp [List.getElem?_eq_getElem this] at hget
  | some t =>
    have htmem : t ∈ pool := List.getElem?_mem hget
    obtain ⟨reg, code⟩ := t
    rcases hmem _ htmem with hc | hc
    · simp only at hc
      subst hc
      exact ⟨pool, h, by simp [stepThread, hget], hlen, hmem, hl, fun _ hj => hj,
        fun _ => by simp [hget]⟩
    · simp only [spa_fetch_code] at hc
      subst hc
      have hcount := finishedThreads_set pool i _ (finishedThreads pool : Int) hget (by simp)
      have hle : finishedThreads (pool.set i ⟨(finishedThreads pool : Int), []⟩) ≤ K := by
        have := List.countP_le_length (fun t : Thread => t.code.isEmpty)
          (l := pool.set i ⟨(finishedThreads pool : Int), []⟩)
        simp only [List.length_set] at this
        simpa [finishedThreads, hlen] using this
      have hv : T.valid ((finishedThreads pool : Int) + 1) :=
        valid_of_le T _ (K : Int) hT hK (by omega) (by omega)
      have hexec : Instr.exec (.fetch T .add p 1) reg h
          = .ok ((finishedThreads pool : Int),
              h.set p (some ((finishedThreads pool : Int) + 1))) := by
        simp [Instr.exec, atomic_fetch, deref_live hl, Action.apply, wrap_of_valid T _ hv]
      refine ⟨pool.set i ⟨(finishedThreads pool : Int), []⟩,
        h.set p (some ((finishedThreads pool : Int) + 1)), ?_, ?_, ?_, ?_, ?_, ?_⟩
      · simp [stepThread, hget, hexec]
      · simp [hlen]
      · intro u hu
        rcases List.mem_or_eq_of_mem_set hu with hu | hu
        · exact hmem u hu
        · exact Or.inl (by rw [hu])
      · rw [hcount]
        push_cast
        exact live_set h p _ hl.1
      · intro j hj
        by_cases hij : i = j
        · subst hij
          rw [hget] at hj
          simp at hj
        · rw [List.getElem?_set_ne hij]
          exact hj
      · intro hi
        have : i < pool.length := by omega
        simp [List.getElem?_set_self this]

theorem runSchedule_increment (T : AtomicType) (p K : Nat) (hT : T.isInteger = true)
    (hK : T.valid (K : Int)) (sched : List Nat) :
    ∀ (pool : List Thread) (h : Heap), pool.length = K →
      (∀ t ∈ pool, t.code = [] ∨ t.code = spa_fetch_code T .add p 1) →
      Live h p (finishedThreads pool : Int) →
      ∃ pool1 h1, runSchedule sched pool h = .ok (pool1, h1) ∧ pool1.length = K ∧
        Live h1 p (finishedThreads pool1 : Int) ∧
        (∀ j : Nat, j < K → (pool[j]?.map Thread.code = some [] ∨ j ∈ sched) →
          pool1[j]?.map Thread.code = some []) := by
  induction sched with
  | nil =>
    intro pool h hlen _ hl
    refine ⟨pool, h, rfl, hlen, hl, ?_⟩
    intro j _ hj
    rcases hj with hj | hj
    · exact hj
    · simp at hj
  | cons i rest ih =>
    intro pool h hlen hmem hl
    obtain ⟨pool1, h1, hstep, hlen1, hmem1, hl1, hkeep, hdone⟩ :=
      stepThread_increment T p K i pool h hT hK hlen hmem hl
    obtain ⟨pool2, h2, hrun, hlen2, hl2, hfin⟩ := ih pool1 h1 hlen1 hmem1 hl1
    refine ⟨pool2, h2, by simp [runSchedule, hstep, hrun], hlen2, hl2, ?_⟩
    intro j hjK hj
    apply hfin j hjK
    rcases hj with hj | hj
    · exact Or.inl (hkeep j hj)
    · rcases List.mem_cons.mp hj with rfl | hj
      · exact Or.inl (hdone hjK)
      · exact Or.inr hj

theorem live_of_create (T : AtomicType) (m : Nat) (v : Int) (h0 : Heap) (p : Nat) (h : Heap)
    (hc : spa_create T m v h0 = .ok (p, h)) : Live h p v := by
  unfold spa_create atomic_init at hc
  by_cases hm : m = NULL
  · simp [hm] at hc
  · simp only [hm, if_false] at hc
    injection hc with hc
    injection hc with hr hh
    subst hr hh
    exact live_set h0 m v hm

theorem spa_fetch_code_alone (T : AtomicType) (a : Action) (p : Nat) (x r : Int) (h : Heap) :
    (runSchedule [0] [⟨r, spa_fetch_code T a p x⟩] h).map Prod.snd
      = (spa_fetch T a p x h).map Prod.snd := by
  simp only [runSchedule, stepThread, spa_fetch_code, spa_fetch, Instr.exec,
    List.getElem?_cons_zero]
  cases atomic_fetch T a p x h <;> rfl

theorem load_then_store_loses_update :
    runSchedule [0, 1, 0, 1]
        [⟨0, load_then_store_increment .uchar 1⟩, ⟨0, load_then_store_increment .uchar 1⟩]
        (Heap.empty.set 1 (some 0))
      = .ok ([⟨0, []⟩, ⟨0, []⟩],
          ((Heap.empty.set 1 (some 0)).set 1 (some 1)).set 1 (some 1)) ∧
    spa_load .uchar 1 (((Heap.empty.set 1 (some 0)).set 1 (some 1)).set 1 (some 1))
      = .ok (1, ((Heap.empty.set 1 (some 0)).set 1 (some 1)).set 1 (some 1)) :=
  ⟨rfl, rfl⟩

/-- C11: a cell of an integer type `T` is created with value 0, and each of `K`
threads, `K` a value of `T`, has the body of `spa_T_add(p, 1)` to run: one call of
`atomic_fetch_add`.  Under every schedule the execution never faults and the cell
holds the number of threads that have made their call; once every thread has been
scheduled (every permutation of the threads does that) all have finished and
`load(p)` returns `K`. -/
theorem C11_no_lost_updates (T : AtomicType) (K m p : Nat) (h0 h : Heap) (pool : List Thread)
    (sched : List Nat) (hT : T.isInteger = true) (hK : T.valid (K : Int))
    (hc : spa_create T m 0 h0 = .ok (p, h)) (hlen : pool.length = K)
    (hcode : ∀ t ∈ pool, t.code = spa_fetch_code T .add p 1) :
    ∃ pool1 h1,
      runSchedule sched pool h = .ok (pool1, h1) ∧
      Live h1 p (finishedThreads pool1 : Int) ∧
      ((∀ i < K, i ∈ sched) →
        (∀ t ∈ pool1, t.code = []) ∧ spa_load T p h1 = .ok ((K : Int), h1)) := by
  have hl : Live h p 0 := live_of_create T m 0 h0 p h hc
  have h0c : finishedThreads pool = 0 :=
    finishedThreads_none pool (fun t ht => by rw [hcode t ht]; simp [spa_fetch_code])
  obtain ⟨pool1, h1, hrun, hlen1, hl1, hfin⟩ :=
    runSchedule_increment T p K hT hK sched pool h hlen (fun t ht => Or.inr (hcode t ht))
      (by simpa [h0c] using hl)
  refine ⟨pool1, h1, hrun, hl1, ?_⟩
  intro hs
  have hall : ∀ t ∈ pool1, t.code = [] := by
    intro t ht
    obtain ⟨j, hj⟩ := List.mem_iff_getElem?.mp ht
    have hjK : j < K := by
      obtain ⟨hlt, _⟩ := List.getElem?_eq_some.mp hj
      omega
    have := hfin j hjK (Or.inr (hs j hjK))
    rw [hj] at this
    simpa using this
  refine ⟨hall, ?_⟩
  rw [finishedThreads_all pool1 hall, hlen1] at hl1
  exact spa_load_live T hl1

/-- Witness of C11: three threads on a `uchar` cell created at address 1, run in the
order 2, 0, 1; the cell goes 0, 1, 2, 3, the threads saw 1, 2 and 0 as the old
value, and the load returns 3. -/
theorem C11_no_lost_updates_witness :
    AtomicType.isInteger .uchar = true ∧ AtomicType.valid .uchar ((3 : Nat) : Int) ∧
    spa_create .uchar 1 0 Heap.empty = .ok (1, Heap.empty.set 1 (some 0)) ∧
    (List.replicate 3 (Thread.mk 0 (spa_fetch_code .uchar .add 1 1))).length = 3 ∧
    (∀ t ∈ List.replicate 3 (Thread.mk 0 (spa_fetch_code .uchar .add 1 1)),
      t.code = spa_fetch_code .uchar .add 1 1) ∧
    runSchedule [2, 0, 1] (List.replicate 3 (Thread.mk 0 (spa_fetch_code .uchar .add 1 1)))
        (Heap.empty.set 1 (some 0))
      = .ok ([⟨1, []⟩, ⟨2, []⟩, ⟨0, []⟩],
          (((Heap.empty.set 1 (some 0)).set 1 (some 1)).set 1 (some 2)).set 1 (some 3)) ∧
    spa_load .uchar 1
        ((((Heap.empty.set 1 (some 0)).set 1 (some 1)).set 1 (some 2)).set 1 (some 3))
      = .ok (3, (((Heap.empty.set 1 (some 0)).set 1 (some 1)).set 1 (some 2)).set 1 (some 3)) ∧
    (∃ pool1 h1,
      runSchedule [2, 0, 1] (List.replicate 3 (Thread.mk 0 (spa_fetch_code .uchar .add 1 1)))
          (Heap.empty.set 1 (some 0)) = .ok (pool1, h1) ∧
      Live h1 1 (finishedThreads pool1 : Int) ∧
      ((∀ i < 3, i ∈ [2, 0, 1]) →
        (∀ t ∈ pool1, t.code = []) ∧ spa_load .uchar 1 h1 = .ok (((3 : Nat) : Int), h1))) :=
  ⟨rfl, by decide, rfl, rfl, fun t ht => by rw [List.eq_of_mem_replicate ht], rfl, rfl,
   C11_no_lost_updates .uchar 3 1 1 Heap.empty (Heap.empty.set 1 (some 0))
     (List.replicate 3 (Thread.mk 0 (spa_fetch_code .uchar .add 1 1))) [2, 0, 1] rfl
     (by decide) rfl rfl (fun t ht => by rw [List.eq_of_mem_replicate ht])⟩

end StartCore
